import Mathlib

/-!
# proton-receiver.c : statistics and flow control of the PN_DELIVERY handler

A shallow embedding of `proton-receiver.c`.

* `app_data_t` becomes the structure `AppData`; every C function that mutates it
  becomes a function returning the new `AppData`.
* Values the handler obtains from the Proton library or from the operating
  system (`pn_delivery_readable`, `pn_link_recv`, `pn_message_get_id`,
  `pn_link_credit`, `gettimeofday`, `malloc`, ...) are fields of the input
  record `Delivery`; the calls the handler makes into the library are the
  output list of `Action`s.
* `unsigned` counters are naturals reduced modulo `2^32`, `uint64_t` and
  `unsigned long` values are naturals reduced modulo `2^64`.
* `float` fields hold integers; `f32` rounds an integer to the nearest value
  representable with a 24 bit significand (ties to even), which is what the
  conversions `long -> float` and the `float` addition of the source do on
  integer values (the exponent range of `float` is never left by a `time_t`).
* `fatal ()` ends the process: the handler returns `Except.error`.
* Output on stdout / stderr is not part of the model.
-/

namespace ProtonReceiver

/-! ## Machine arithmetic -/

/-- Modulus of the C type `unsigned` (32 bit). -/
def UINT_MOD : Nat := 4294967296

/-- Modulus of `uint64_t` and `unsigned long` (64 bit). -/
def U64_MOD : Nat := 18446744073709551616

/-- Number of low bits a natural loses when it is stored in a `float`:
the least `k` with `n / 2^k < 2^24` (the first argument bounds the recursion). -/
def f32_shift : Nat → Nat → Nat
  | 0, _ => 0
  | fuel + 1, n => if n < 16777216 then 0 else f32_shift fuel (n / 2) + 1

/-- Conversion of a natural to `float`: round to nearest, ties to even,
24 bit significand. -/
def f32_nat (n : Nat) : Nat :=
  let sh := f32_shift n n
  let q := n / 2 ^ sh
  let r := n % 2 ^ sh
  if 2 * r < 2 ^ sh then q * 2 ^ sh
  else if 2 ^ sh < 2 * r then (q + 1) * 2 ^ sh
  else if q % 2 = 0 then q * 2 ^ sh
  else (q + 1) * 2 ^ sh

/-- Conversion of an integer (`time_t`, or the exact sum of two floats holding
integers) to `float`. -/
def f32 (z : Int) : Int :=
  if z < 0 then - (f32_nat z.natAbs : Int) else (f32_nat z.natAbs : Int)

/-! ## Data model -/

/-- The `type` tag of the `pn_atom_t` returned by `pn_message_get_id`. -/
inductive AtomType where
  | PN_NULL
  | PN_ULONG
  | PN_UUID
  | PN_BINARY
  | PN_STRING
  deriving DecidableEq, Repr

/-- The ways the process is ended: the `fatal` calls, the `exit (-1)` of `main`
when `parse_args` returns `-1`, and an array access outside
`distribution[MAX_ORDER][100]`. -/
inductive Abort where
  | usage
  | gettimeofday_failed
  | cannot_allocate_buffer
  | bad_sequence_type
  | prefetch_not_positive
  | display_without_latency
  | out_of_bounds
  deriving DecidableEq, Repr

/-- Calls the handler makes into the Proton library. -/
inductive Action where
  | connection_open
  | session_open
  | receiver_create
  | set_source_address
  | link_open
  | link_flow (credit : Int)
  | session_close
  | connection_close
  | delivery_update_accepted
  | link_advance
  | delivery_settle
  | link_close
  deriving DecidableEq, Repr

/-- Number of decades of the histogram (`#define MAX_ORDER 4`). -/
def MAX_ORDER : Nat := 4

/-- The mutable fields of `app_data_t` (pointers and strings left out). -/
structure AppData where
  debug : Int
  message_count : Int
  pre_fetch : Int
  display_interval_sec : Nat
  latency : Int
  last_then : Int
  dump_csv : Int
  buffer_len : Nat
  expected_sequence : Nat
  dropped_msgs : Nat
  duplicate_msgs : Nat
  start : Int
  received_count : Nat
  max_latency : Int
  min_latency : Int
  total_latency : Int
  distribution : Fin 4 → Fin 100 → Nat
  overflow : Nat

/-- Application data as `main` sets it up before `parse_args`: `memset` to zero,
then `buffer_len = 64`. -/
def app_data_zero : AppData :=
  { debug := 0
    message_count := 0
    pre_fetch := 0
    display_interval_sec := 0
    latency := 0
    last_then := 0
    dump_csv := 0
    buffer_len := 64
    expected_sequence := 0
    dropped_msgs := 0
    duplicate_msgs := 0
    start := 0
    received_count := 0
    max_latency := 0
    min_latency := 0
    total_latency := 0
    distribution := fun _ _ => 0
    overflow := 0 }

/-- Application data as `main` leaves it before the reactor starts with no
command line option given: `app_data_zero`, then the defaults of
`parse_args`. -/
def app_data_init : AppData :=
  { debug := 0
    message_count := 1
    pre_fetch := 100
    display_interval_sec := 0
    latency := 0
    last_then := 0
    dump_csv := 0
    buffer_len := 64
    expected_sequence := 0
    dropped_msgs := 0
    duplicate_msgs := 0
    start := 0
    received_count := 0
    max_latency := 0
    min_latency := 0
    total_latency := 0
    distribution := fun _ _ => 0
    overflow := 0 }

/-- What the environment answers during one `PN_DELIVERY` event. -/
structure Delivery where
  /-- Result of `pn_delivery_readable (dlv)`. -/
  readable : Bool
  /-- Result of `pn_delivery_partial (dlv)`. -/
  part : Bool
  /-- Result of `now ()`; `none` when `gettimeofday` fails. -/
  now : Option Int
  /-- Result of `pn_delivery_pending (dlv)`. -/
  pending : Nat
  /-- Whether `malloc` returns a buffer. -/
  alloc_ok : Bool
  /-- Result of `pn_link_recv`. -/
  recv_len : Int
  /-- Whether `pn_message_decode` returns `PN_OK`. -/
  decode_ok : Bool
  /-- The `type` of the atom returned by `pn_message_get_id`. -/
  id_type : AtomType
  /-- The 64 bits of `id.u`, read as unsigned: every use in the source compares
  or combines `id.u.as_long` with a `uint64_t`, which converts it. -/
  id_value : Nat
  /-- Result of `pn_message_get_creation_time`. -/
  creation_time : Int
  /-- Result of `pn_delivery_settled (dlv)`. -/
  settled : Bool
  /-- Result of `pn_link_credit (data->receiver)`. -/
  credit : Int

/-- Events of the reactor the handler distinguishes. -/
inductive Event where
  | PN_CONNECTION_INIT
  | PN_LINK_REMOTE_OPEN (now : Option Int)
  | PN_LINK_REMOTE_CLOSE
  | PN_DELIVERY (d : Delivery)
  | PN_TRANSPORT_ERROR
  | other

/-! ## Latency recorder (`update_latency`) -/

/-- The if-chain of `update_latency`: the histogram cell `(order, index)` a
sample goes to, `none` for the `overflow` counter. -/
def latency_slot (msecs : Int) : Option (Nat × Int) :=
  if msecs < 100 then some (0, msecs)
  else if msecs < 1000 then some (1, Int.tdiv msecs 10)
  else if msecs < 10000 then some (2, Int.tdiv msecs 100)
  else if msecs < 10000 then some (3, Int.tdiv msecs 1000)
  else none

/-- The statement `data->distribution[order][idx]++`; `none` when the cell is
outside the array. -/
def bump (data : AppData) (order : Nat) (idx : Int) : Option AppData :=
  if h : order < 4 ∧ 0 ≤ idx ∧ idx < 100 then
    let o : Fin 4 := ⟨order, h.1⟩
    let i : Fin 100 := ⟨idx.toNat, by omega⟩
    some { data with
      distribution :=
        Function.update data.distribution o
          (Function.update (data.distribution o) i ((data.distribution o i + 1) % UINT_MOD)) }
  else none

/-- The running aggregates of `update_latency` (source lines 201-205):
`max_latency`, `min_latency` (zero meaning "not set yet") and `total_latency`.
The comparisons convert `msecs` to `float`. -/
def update_aggregates (data : AppData) (msecs : Int) : AppData :=
  let d1 := if data.max_latency < f32 msecs then { data with max_latency := f32 msecs } else data
  let d2 :=
    if d1.min_latency = 0 ∨ f32 msecs < d1.min_latency then { d1 with min_latency := f32 msecs }
    else d1
  { d2 with total_latency := f32 (d2.total_latency + f32 msecs) }

/-- The function `update_latency`: the aggregates, then the histogram
(source lines 207-226). -/
def update_latency (data : AppData) (msecs : Int) : Option AppData :=
  match latency_slot msecs with
  | some (order, idx) => bump (update_aggregates data msecs) order idx
  | none =>
    some { update_aggregates data msecs with
      overflow := ((update_aggregates data msecs).overflow + 1) % UINT_MOD }

/-- Successive calls of `update_latency`, in order. -/
def record_all : AppData → List Int → Option AppData
  | data, [] => some data
  | data, m :: ms =>
    match update_latency data m with
    | some data1 => record_all data1 ms
    | none => none

/-- Sum of the 4 x 100 histogram cells plus the overflow counter. -/
def hist_total (data : AppData) : Nat :=
  (∑ o : Fin 4, ∑ i : Fin 100, data.distribution o i) + data.overflow

/-! ## The event handler -/

/-- The function `print_latency`: besides printing a row it stores `then` in
`data->last_then`. -/
def print_latency (data : AppData) (_msecs then_ _now : Int) : AppData :=
  { data with last_then := then_ }

/-- The sequence check of the `PN_DELIVERY` case (source lines 384-406).
`id.u.as_long - data->expected_sequence` is computed in `uint64_t`, the
compound assignment to the `unsigned` field truncates to 32 bits, and
`id.u.as_long + 1`, an `int64_t` sum taken in two's complement, is stored in a
`uint64_t`. -/
def sequence_check (data : AppData) (id : Nat) : AppData :=
  if id = data.expected_sequence then
    { data with expected_sequence := (data.expected_sequence + 1) % U64_MOD }
  else if data.expected_sequence < id then
    { data with
      dropped_msgs :=
        ((data.dropped_msgs + (id + U64_MOD - data.expected_sequence) % U64_MOD) % U64_MOD)
          % UINT_MOD
      expected_sequence := (id + 1) % U64_MOD }
  else
    { data with duplicate_msgs := (data.duplicate_msgs + 1) % UINT_MOD }

/-- The condition under which the handler takes a latency sample (source
line 377): `_then && _then >= data->start && _now >= _then`. -/
def sample_guard (start now_ then_ : Int) : Prop :=
  then_ ≠ 0 ∧ start ≤ then_ ∧ then_ ≤ now_

instance (start now_ then_ : Int) : Decidable (sample_guard start now_ then_) := by
  unfold sample_guard
  exact inferInstance

/-- The block guarded by `if (data->latency)` in the `PN_DELIVERY` case
(source lines 349-409). -/
def latency_block (data : AppData) (d : Delivery) : Except Abort AppData :=
  match d.now with
  | none => Except.error Abort.gettimeofday_failed
  | some now_ =>
    if data.buffer_len < d.pending ∧ d.alloc_ok = false then
      Except.error Abort.cannot_allocate_buffer
    else
      let data1 := if data.buffer_len < d.pending then { data with buffer_len := d.pending } else data
      if 0 < d.recv_len then
        if d.decode_ok = true then
          let then_ := d.creation_time
          let sampled : Option AppData :=
            if sample_guard data1.start now_ then_ then
              update_latency (print_latency data1 (now_ - then_) then_ now_) (now_ - then_)
            else some data1
          match sampled with
          | none => Except.error Abort.out_of_bounds
          | some data2 =>
            if d.id_type ≠ AtomType.PN_ULONG then Except.error Abort.bad_sequence_type
            else Except.ok (sequence_check data2 d.id_value)
        else Except.ok data1
      else Except.ok data1

/-- The credit replenishment of the `PN_DELIVERY` case (source lines 426-429):
the calls made for a link credit `credit`. The division is C's, truncating
towards zero; the `int` subtraction is exact wherever C defines it. -/
def replenish (pre_fetch credit : Int) : List Action :=
  if credit < Int.tdiv pre_fetch 2 then [Action.link_flow (pre_fetch - credit)] else []

/-- The message limit of the `PN_DELIVERY` case (source lines 431-435): the new
`message_count` and the calls made. -/
def count_down (message_count : Int) : Int × List Action :=
  if 0 < message_count then
    if message_count - 1 = 0 then (message_count - 1, [Action.link_close])
    else (message_count - 1, [])
  else (message_count, [])

/-- The `PN_DELIVERY` case of `event_handler`. -/
def delivery_handler (data : AppData) (d : Delivery) : Except Abort (AppData × List Action) :=
  if d.readable = true ∧ d.part = false then
    match (if data.latency ≠ 0 then latency_block data d else Except.ok data) with
    | Except.error e => Except.error e
    | Except.ok data1 =>
      let data2 := { data1 with received_count := (data1.received_count + 1) % U64_MOD }
      let ack := if d.settled = false then [Action.delivery_update_accepted] else []
      let limit := count_down data2.message_count
      Except.ok
        ({ data2 with message_count := limit.1 },
          ack ++ [Action.link_advance, Action.delivery_settle]
            ++ replenish data2.pre_fetch d.credit ++ limit.2)
  else Except.ok (data, [])

/-- The function `event_handler`. -/
def event_handler (data : AppData) : Event → Except Abort (AppData × List Action)
  | Event.PN_CONNECTION_INIT =>
    Except.ok
      (data,
        [Action.connection_open, Action.session_open, Action.receiver_create,
          Action.set_source_address, Action.link_open, Action.link_flow data.pre_fetch])
  | Event.PN_LINK_REMOTE_OPEN now_ =>
    match now_ with
    | none => Except.error Abort.gettimeofday_failed
    | some t => Except.ok ({ data with start := t }, [])
  | Event.PN_LINK_REMOTE_CLOSE =>
    Except.ok (data, [Action.session_close, Action.connection_close])
  | Event.PN_DELIVERY d => delivery_handler data d
  | Event.PN_TRANSPORT_ERROR => Except.ok (data, [])
  | Event.other => Except.ok (data, [])

/-- The checks at the end of `parse_args` (source lines 536-540). -/
def validate_args (data : AppData) : Except Abort Unit :=
  if data.pre_fetch ≤ 0 then Except.error Abort.prefetch_not_positive
  else if data.display_interval_sec ≠ 0 ∧ data.latency = 0 then
    Except.error Abort.display_without_latency
  else Except.ok ()

/-- One option as `getopt` hands it to `parse_args`, with the value `atoi` or
`atol` read from its argument; `unknown` is any option outside
`"a:c:t:i:p:S:luv"`. -/
inductive Opt where
  | a
  | c (count : Int)
  | t
  | i (seconds : Int)
  | v
  | l
  | p (window : Int)
  | u
  | S (first : Int)
  | unknown

/-- The `switch` of `parse_args` for one option; `none` is `return -1`. The
value of `-i` is stored in a `uint32_t`, the value of `-S` in a `uint64_t`. -/
def parse_opt (app : AppData) : Opt → Option AppData
  | Opt.a => some app
  | Opt.c count => some { app with message_count := count }
  | Opt.t => some app
  | Opt.i seconds => some { app with display_interval_sec := (seconds % 4294967296).toNat }
  | Opt.v => some { app with debug := app.debug + 1 }
  | Opt.l => some { app with latency := 1 }
  | Opt.p window => some { app with pre_fetch := window }
  | Opt.u => some { app with dump_csv := 1 }
  | Opt.S first => some { app with expected_sequence := (first % 18446744073709551616).toNat }
  | Opt.unknown => none

/-- The `while` loop of `parse_args`. -/
def parse_opts : AppData → List Opt → Option AppData
  | app, [] => some app
  | app, o :: os =>
    match parse_opt app o with
    | none => none
    | some app1 => parse_opts app1 os

/-- The function `parse_args`: defaults, options, checks. -/
def parse_args (app : AppData) (opts : List Opt) : Except Abort AppData :=
  let app0 :=
    { app with
      debug := 0
      message_count := 1
      pre_fetch := 100
      display_interval_sec := 0
      latency := 0
      expected_sequence := 0 }
  match parse_opts app0 opts with
  | none => Except.error Abort.usage
  | some app1 =>
    match validate_args app1 with
    | Except.error e => Except.error e
    | Except.ok _ => Except.ok app1

/-- The events the handler runs to its end, in order, each with the application
data it leaves and the calls it made; the run ends at the first `fatal`. -/
def handled : AppData → List Event → List (AppData × List Action)
  | _, [] => []
  | data, e :: es =>
    match event_handler data e with
    | Except.error _ => []
    | Except.ok (data1, acts) => (data1, acts) :: handled data1 es

/-! ## Observations -/

/-- Application data after a handler call, `none` when the process was ended. -/
def post_data (r : Except Abort (AppData × List Action)) : Option AppData :=
  match r with
  | Except.ok (data, _) => some data
  | Except.error _ => none

/-- Calls made by a handler call, `none` when the process was ended. -/
def post_actions (r : Except Abort (AppData × List Action)) : Option (List Action) :=
  match r with
  | Except.ok (_, acts) => some acts
  | Except.error _ => none

/-- The reason the process was ended, `none` when the handler returned. -/
def post_abort (r : Except Abort (AppData × List Action)) : Option Abort :=
  match r with
  | Except.ok _ => none
  | Except.error e => some e

/-- Total credit handed to `pn_link_flow` in a list of calls. -/
def granted : List Action → Int
  | [] => 0
  | Action.link_flow n :: rest => n + granted rest
  | _ :: rest => granted rest

/-- Whether a call is `pn_link_flow`. -/
def is_flow : Action → Bool
  | Action.link_flow _ => true
  | _ => false

/-- A delivery for which the handler reaches the body of
`if (PN_OK == pn_message_decode (...))` when latency measurement is enabled:
readable, not partial, the clock and the buffer are available, data was read
and decoded. -/
def decoded_full (data : AppData) (d : Delivery) : Prop :=
  d.readable = true ∧ d.part = false ∧ d.now.isSome = true
    ∧ (d.pending ≤ data.buffer_len ∨ d.alloc_ok = true)
    ∧ 0 < d.recv_len ∧ d.decode_ok = true

/-- The latency statistics of the application data. -/
def latency_view (data : AppData) : Int × Int × Int × (Fin 4 → Fin 100 → Nat) × Nat :=
  (data.min_latency, data.max_latency, data.total_latency, data.distribution, data.overflow)

/-- The fields of the application data `update_latency` does not write. -/
def other_view (data : AppData) :
    Int × Int × Int × Nat × Int × Int × Int × Nat × Nat × Nat × Nat × Int × Nat :=
  (data.debug, data.message_count, data.pre_fetch, data.display_interval_sec, data.latency,
    data.last_then, data.dump_csv, data.buffer_len, data.expected_sequence, data.dropped_msgs,
    data.duplicate_msgs, data.start, data.received_count)

/-! ## Concrete inputs -/

/-- A readable, complete, decodable delivery carrying sequence id `id`, creation
time `then_`, received at time `now_` with link credit `credit`. -/
def delivery_of (ty : AtomType) (id : Nat) (then_ now_ credit : Int) : Delivery :=
  { readable := true
    part := false
    now := some now_
    pending := 32
    alloc_ok := true
    recv_len := 32
    decode_ok := true
    id_type := ty
    id_value := id
    creation_time := then_
    settled := false
    credit := credit }

/-- The initial application data with latency measurement enabled (`-l`). -/
def app_data_latency : AppData := { app_data_init with latency := 1 }

/-- A delivery whose sequence id is the largest `uint64_t`, without creation
time. -/
def delivery_max_id : Delivery :=
  delivery_of AtomType.PN_ULONG 18446744073709551615 0 1000 99

/-- Application data with latency measurement enabled, sequence 10 expected and
the duplicate counter at the largest `unsigned`. -/
def app_data_dup_max : AppData :=
  { app_data_latency with expected_sequence := 10, duplicate_msgs := 4294967295 }

/-- A delivery carrying the old sequence id 4, without creation time. -/
def delivery_old_id : Delivery := delivery_of AtomType.PN_ULONG 4 0 1000 99

/-- The fields neither the latency block nor the statistics touch. -/
def config_view (data : AppData) : Int × Int × Int × Nat × Int × Int × Int × Nat :=
  (data.debug, data.message_count, data.pre_fetch, data.display_interval_sec, data.latency,
    data.dump_csv, data.start, data.received_count)

/-- The initial application data with a limit of three messages (`-c 3`). -/
def app_data_three : AppData := { app_data_init with message_count := 3 }

/-- Four deliveries with sequence ids 0 to 3, each leaving link credit 99. -/
def four_deliveries : List Delivery :=
  [delivery_of AtomType.PN_ULONG 0 0 1000 99, delivery_of AtomType.PN_ULONG 1 0 1001 99,
    delivery_of AtomType.PN_ULONG 2 0 1002 99, delivery_of AtomType.PN_ULONG 3 0 1003 99]

/-- A decodable delivery without message id (the atom is of type `PN_NULL`) and
without creation time. -/
def delivery_no_id : Delivery := delivery_of AtomType.PN_NULL 0 0 1000 99

/-- The initial application data with a credit window of one (`-p 1`). -/
def app_data_window_one : AppData := { app_data_init with pre_fetch := 1 }

/-- Events after the initial grant with a window of one: the link opens, the one
delivery the credit allows arrives and leaves link credit 0, a timer event, and
a further `PN_DELIVERY` event for an unreadable delivery. -/
def events_window_one : List Event :=
  [Event.PN_LINK_REMOTE_OPEN (some 500),
    Event.PN_DELIVERY (delivery_of AtomType.PN_ULONG 0 0 1000 0),
    Event.other,
    Event.PN_DELIVERY { delivery_of AtomType.PN_ULONG 1 0 1001 0 with readable := false }]

/-! ## Lemmas on the latency recorder -/

theorem latency_slot_bounds (m : Int) (hm : 0 ≤ m) (o : Nat) (i : Int)
    (h : latency_slot m = some (o, i)) : o < 4 ∧ 0 ≤ i ∧ i < 100 := by
  unfold latency_slot at h
  rw [Int.tdiv_eq_ediv hm (by omega), Int.tdiv_eq_ediv hm (by omega),
    Int.tdiv_eq_ediv hm (by omega)] at h
  split_ifs at h <;> simp only [Option.some.injEq, Prod.mk.injEq] at h <;>
    obtain ⟨rfl, rfl⟩ := h <;> omega

theorem update_aggregates_other (data : AppData) (m : Int) :
    other_view (update_aggregates data m) = other_view data
      ∧ (update_aggregates data m).distribution = data.distribution
      ∧ (update_aggregates data m).overflow = data.overflow := by
  unfold update_aggregates other_view
  dsimp only
  split_ifs <;> exact ⟨rfl, rfl, rfl⟩

theorem bump_some (data : AppData) (o : Nat) (i : Int) (h : o < 4 ∧ 0 ≤ i ∧ i < 100) :
    ∃ u, bump data o i = some u ∧ other_view u = other_view data
      ∧ u.min_latency = data.min_latency ∧ u.max_latency = data.max_latency
      ∧ u.total_latency = data.total_latency ∧ u.overflow = data.overflow := by
  unfold bump
  rw [dif_pos h]
  exact ⟨_, rfl, rfl, rfl, rfl, rfl, rfl⟩

theorem update_latency_some (data : AppData) (m : Int) (hm : 0 ≤ m) :
    ∃ u, update_latency data m = some u ∧ other_view u = other_view data := by
  unfold update_latency
  cases hs : latency_slot m with
  | none => exact ⟨_, rfl, (update_aggregates_other data m).1⟩
  | some p =>
    obtain ⟨o, i⟩ := p
    obtain ⟨u, hu, hv, -⟩ :=
      bump_some (update_aggregates data m) o i (latency_slot_bounds m hm o i hs)
    exact ⟨u, hu, hv.trans (update_aggregates_other data m).1⟩

theorem update_latency_view (a b : AppData) (m : Int) (h : latency_view a = latency_view b) :
    (update_latency a m).map latency_view = (update_latency b m).map latency_view := by
  simp only [latency_view, Prod.mk.injEq] at h
  obtain ⟨h1, h2, h3, h4, h5⟩ := h
  unfold update_latency update_aggregates bump
  dsimp only
  rw [h1, h2, h3]
  cases latency_slot m with
  | none =>
    simp only [Option.map_some', latency_view, h5, h4]
    split_ifs <;> simp_all
  | some p =>
    obtain ⟨o, i⟩ := p
    dsimp only
    split_ifs <;> simp_all [latency_view]

/-- What the latency block does on a decoded delivery: the sample is recorded
when the guard holds, then the sequence id is checked. -/
theorem latency_block_decoded (data : AppData) (d : Delivery) (now_ : Int)
    (hfull : decoded_full data d) (hnow : d.now = some now_) :
    ∃ data2 : AppData,
      latency_block data d =
          (if d.id_type ≠ AtomType.PN_ULONG then Except.error Abort.bad_sequence_type
            else Except.ok (sequence_check data2 d.id_value))
        ∧ data2.expected_sequence = data.expected_sequence
        ∧ data2.dropped_msgs = data.dropped_msgs
        ∧ data2.duplicate_msgs = data.duplicate_msgs
        ∧ data2.received_count = data.received_count
        ∧ data2.message_count = data.message_count
        ∧ data2.pre_fetch = data.pre_fetch
        ∧ (if sample_guard data.start now_ d.creation_time then
            (update_latency data (now_ - d.creation_time)).map latency_view
              = some (latency_view data2)
          else latency_view data2 = latency_view data) := by
  obtain ⟨-, -, -, hbuf, hlen, hdec⟩ := hfull
  have hnoabort : ¬ (data.buffer_len < d.pending ∧ d.alloc_ok = false) := by
    rintro ⟨h1, h2⟩
    rcases hbuf with h | h
    · omega
    · rw [h] at h2; exact Bool.noConfusion h2
  unfold latency_block
  rw [hnow]
  dsimp only
  rw [if_neg hnoabort, if_pos hlen, if_pos hdec]
  generalize hd1 :
    (if data.buffer_len < d.pending then { data with buffer_len := d.pending } else data) = data1
  have hs1 : data1.start = data.start := by subst hd1; split_ifs <;> rfl
  have hl1 : latency_view data1 = latency_view data := by subst hd1; split_ifs <;> rfl
  have hf1 : data1.expected_sequence = data.expected_sequence
      ∧ data1.dropped_msgs = data.dropped_msgs ∧ data1.duplicate_msgs = data.duplicate_msgs
      ∧ data1.received_count = data.received_count ∧ data1.message_count = data.message_count
      ∧ data1.pre_fetch = data.pre_fetch := by
    subst hd1; split_ifs <;> exact ⟨rfl, rfl, rfl, rfl, rfl, rfl⟩
  rw [hs1]
  by_cases hv : sample_guard data.start now_ d.creation_time
  · rw [if_pos hv]
    obtain ⟨u, hu, hou⟩ := update_latency_some
      (print_latency data1 (now_ - d.creation_time) d.creation_time now_)
      (now_ - d.creation_time) (by have := hv.2.2; omega)
    rw [hu]
    refine ⟨u, rfl, ?_⟩
    simp only [other_view, print_latency, Prod.mk.injEq] at hou
    obtain ⟨-, e2, e3, -, -, -, -, -, e9, e10, e11, -, e13⟩ := hou
    obtain ⟨f1, f2, f3, f4, f5, f6⟩ := hf1
    refine ⟨e9.trans f1, e10.trans f2, e11.trans f3, e13.trans f4, e2.trans f5, e3.trans f6, ?_⟩
    rw [if_pos hv]
    have hview : latency_view (print_latency data1 (now_ - d.creation_time) d.creation_time now_)
        = latency_view data := hl1
    have := update_latency_view _ _ (now_ - d.creation_time) hview
    rw [hu] at this
    exact this.symm
  · rw [if_neg hv]
    refine ⟨data1, rfl, hf1.1, hf1.2.1, hf1.2.2.1, hf1.2.2.2.1, hf1.2.2.2.2.1, hf1.2.2.2.2.2, ?_⟩
    rw [if_neg hv]
    exact hl1

/-- The handler on a readable, complete delivery once the latency block has
returned. -/
theorem delivery_handler_of_block (data data1 : AppData) (d : Delivery)
    (hr : d.readable = true) (hp : d.part = false)
    (hb : (if data.latency ≠ 0 then latency_block data d else Except.ok data) = Except.ok data1) :
    delivery_handler data d =
      Except.ok
        ({ data1 with
            received_count := (data1.received_count + 1) % U64_MOD
            message_count := (count_down data1.message_count).1 },
          (if d.settled = false then [Action.delivery_update_accepted] else [])
            ++ [Action.link_advance, Action.delivery_settle]
            ++ replenish data1.pre_fetch d.credit ++ (count_down data1.message_count).2) := by
  unfold delivery_handler
  rw [if_pos ⟨hr, hp⟩, hb]

/-- With no option given `parse_args` succeeds and yields `app_data_init`. -/
theorem parse_args_defaults : parse_args app_data_zero [] = Except.ok app_data_init := rfl

/-! ## Sequence tracking -/

theorem sequence_check_ahead (data : AppData) (id : Nat)
    (hdrop : data.dropped_msgs < UINT_MOD) (hge : data.expected_sequence ≤ id) :
    (sequence_check data id).expected_sequence = (id + 1) % U64_MOD
      ∧ (sequence_check data id).dropped_msgs
          = (data.dropped_msgs + (id - data.expected_sequence)) % UINT_MOD
      ∧ (sequence_check data id).duplicate_msgs = data.duplicate_msgs := by
  unfold sequence_check
  by_cases h : id = data.expected_sequence
  · rw [if_pos h]
    refine ⟨by rw [h], ?_, rfl⟩
    simp only [h, Nat.sub_self, Nat.add_zero]
    exact (Nat.mod_eq_of_lt hdrop).symm
  · have hlt : data.expected_sequence < id := by omega
    rw [if_neg h, if_pos hlt]
    refine ⟨rfl, ?_, rfl⟩
    simp only [U64_MOD, UINT_MOD] at *
    omega

theorem sequence_check_behind (data : AppData) (id : Nat) (hlt : id < data.expected_sequence) :
    (sequence_check data id).duplicate_msgs = (data.duplicate_msgs + 1) % UINT_MOD
      ∧ (sequence_check data id).expected_sequence = data.expected_sequence
      ∧ (sequence_check data id).dropped_msgs = data.dropped_msgs := by
  unfold sequence_check
  rw [if_neg (by omega), if_neg (by omega)]
  exact ⟨rfl, rfl, rfl⟩

/-- C1, as stated, fails: with sequence 0 expected and no message dropped so
far, a decoded delivery with id `2^64 - 1` (which is at or ahead of the expected
id) leaves `expected_sequence = 0` and `dropped_msgs = 2^32 - 1`, whereas the
claim asks for `id + 1 = 2^64` and `0 + (id - 0) = 2^64 - 1`. -/
theorem sequence_ahead_counterexample :
    decoded_full app_data_latency delivery_max_id
      ∧ app_data_latency.latency ≠ 0
      ∧ delivery_max_id.id_type = AtomType.PN_ULONG
      ∧ app_data_latency.expected_sequence ≤ delivery_max_id.id_value
      ∧ (post_data (delivery_handler app_data_latency delivery_max_id)).map
          (fun s => (s.expected_sequence, s.dropped_msgs)) = some (0, 4294967295)
      ∧ (delivery_max_id.id_value + 1,
          app_data_latency.dropped_msgs
            + (delivery_max_id.id_value - app_data_latency.expected_sequence))
          = (18446744073709551616, 18446744073709551615) := by
  refine ⟨?_, ?_, ?_, ?_, ?_, ?_⟩
  · unfold decoded_full; decide
  · decide
  · decide
  · decide
  · decide
  · decide

/-- C1 (amended): for every state whose `dropped_msgs` is a valid `unsigned` and
every decoded full delivery (latency measurement enabled, id of unsigned-long
type) with `id >= expected_sequence`, the handler returns and afterwards
`expected_sequence` is `id + 1` reduced modulo `2^64`, `dropped_msgs` is the old
value plus `id - expected_sequence` reduced modulo `2^32`, and `duplicate_msgs`
is unchanged; when neither sum overflows its type the two values are exactly
`id + 1` and the old count plus the gap. -/
theorem sequence_ahead (data : AppData) (d : Delivery)
    (hfull : decoded_full data d) (hlat : data.latency ≠ 0)
    (hty : d.id_type = AtomType.PN_ULONG)
    (hdrop : data.dropped_msgs < UINT_MOD) (hge : data.expected_sequence ≤ d.id_value) :
    ∃ data1 acts, delivery_handler data d = Except.ok (data1, acts)
      ∧ data1.expected_sequence = (d.id_value + 1) % U64_MOD
      ∧ data1.dropped_msgs
          = (data.dropped_msgs + (d.id_value - data.expected_sequence)) % UINT_MOD
      ∧ data1.duplicate_msgs = data.duplicate_msgs
      ∧ (d.id_value + 1 < U64_MOD → data1.expected_sequence = d.id_value + 1)
      ∧ (data.dropped_msgs + (d.id_value - data.expected_sequence) < UINT_MOD →
          data1.dropped_msgs = data.dropped_msgs + (d.id_value - data.expected_sequence)) := by
  obtain ⟨now_, hnow⟩ := Option.isSome_iff_exists.mp hfull.2.2.1
  obtain ⟨data2, hb, h1, h2, h3, -⟩ := latency_block_decoded data d now_ hfull hnow
  rw [if_neg (by simp [hty])] at hb
  have hh := delivery_handler_of_block data _ d hfull.1 hfull.2.1 (by rw [if_pos hlat]; exact hb)
  have hs := sequence_check_ahead data2 d.id_value (by omega) (by omega)
  rw [h1, h2, h3] at hs
  obtain ⟨s1, s2, s3⟩ := hs
  refine ⟨_, _, hh, s1, s2, s3, ?_, ?_⟩
  · intro hlt
    exact s1.trans (Nat.mod_eq_of_lt hlt)
  · intro hlt
    exact s2.trans (Nat.mod_eq_of_lt hlt)

/-- Witness of `sequence_ahead`: the scenario step "expected 2, id 5" of the
specification, from the initial data with latency measurement enabled. -/
theorem sequence_ahead_witness :
    ∃ data1 acts,
      delivery_handler { app_data_latency with expected_sequence := 2 }
          (delivery_of AtomType.PN_ULONG 5 0 1000 99) = Except.ok (data1, acts)
        ∧ data1.expected_sequence = 6 ∧ data1.dropped_msgs = 3 ∧ data1.duplicate_msgs = 0 := by
  obtain ⟨data1, acts, h, -, -, h3, h4, h5⟩ :=
    sequence_ahead { app_data_latency with expected_sequence := 2 }
      (delivery_of AtomType.PN_ULONG 5 0 1000 99)
      (by unfold decoded_full; decide) (by decide) rfl (by decide) (by decide)
  exact ⟨data1, acts, h, h4 (by decide), h5 (by decide), h3⟩

/-- C2, as stated, fails: with `duplicate_msgs` at `2^32 - 1` and sequence 10
expected, a decoded delivery with the older id 4 leaves `duplicate_msgs = 0`,
not `2^32`. -/
theorem sequence_duplicate_counterexample :
    decoded_full app_data_dup_max delivery_old_id
      ∧ app_data_dup_max.latency ≠ 0
      ∧ delivery_old_id.id_type = AtomType.PN_ULONG
      ∧ delivery_old_id.id_value < app_data_dup_max.expected_sequence
      ∧ app_data_dup_max.duplicate_msgs = 4294967295
      ∧ (post_data (delivery_handler app_data_dup_max delivery_old_id)).map
          (fun s => s.duplicate_msgs) = some 0 := by
  refine ⟨?_, ?_, ?_, ?_, ?_, ?_⟩
  · unfold decoded_full; decide
  · decide
  · decide
  · decide
  · decide
  · decide

/-- C2 (amended): for every state and every decoded full delivery (latency
measurement enabled, id of unsigned-long type) with `id < expected_sequence`,
the handler returns and afterwards `duplicate_msgs` is the old value plus 1
reduced modulo `2^32` (exactly the old value plus 1 unless the counter was at
`2^32 - 1`), while `expected_sequence` and `dropped_msgs` are unchanged. -/
theorem sequence_duplicate (data : AppData) (d : Delivery)
    (hfull : decoded_full data d) (hlat : data.latency ≠ 0)
    (hty : d.id_type = AtomType.PN_ULONG) (hlt : d.id_value < data.expected_sequence) :
    ∃ data1 acts, delivery_handler data d = Except.ok (data1, acts)
      ∧ data1.duplicate_msgs = (data.duplicate_msgs + 1) % UINT_MOD
      ∧ (data.duplicate_msgs + 1 < UINT_MOD → data1.duplicate_msgs = data.duplicate_msgs + 1)
      ∧ data1.expected_sequence = data.expected_sequence
      ∧ data1.dropped_msgs = data.dropped_msgs := by
  obtain ⟨now_, hnow⟩ := Option.isSome_iff_exists.mp hfull.2.2.1
  obtain ⟨data2, hb, h1, h2, h3, -⟩ := latency_block_decoded data d now_ hfull hnow
  rw [if_neg (by simp [hty])] at hb
  have hh := delivery_handler_of_block data _ d hfull.1 hfull.2.1 (by rw [if_pos hlat]; exact hb)
  have hs := sequence_check_behind data2 d.id_value (by omega)
  rw [h1, h2, h3] at hs
  obtain ⟨s1, s2, s3⟩ := hs
  refine ⟨_, _, hh, s1, ?_, s2, s3⟩
  intro hlt1
  exact s1.trans (Nat.mod_eq_of_lt hlt1)

/-- Witness of `sequence_duplicate`: the scenario step "expected 6, id 4" of the
specification. -/
theorem sequence_duplicate_witness :
    ∃ data1 acts,
      delivery_handler { app_data_latency with expected_sequence := 6, dropped_msgs := 3 }
          (delivery_of AtomType.PN_ULONG 4 0 1000 99) = Except.ok (data1, acts)
        ∧ data1.duplicate_msgs = 1 ∧ data1.expected_sequence = 6 ∧ data1.dropped_msgs = 3 := by
  obtain ⟨data1, acts, h, -, h2, h3, h4⟩ :=
    sequence_duplicate { app_data_latency with expected_sequence := 6, dropped_msgs := 3 }
      (delivery_of AtomType.PN_ULONG 4 0 1000 99)
      (by unfold decoded_full; decide) (by decide) rfl (by decide)
  exact ⟨data1, acts, h, h2 (by decide), h3, h4⟩

/-! ## Frame lemmas of the handler -/


theorem sequence_check_config (data : AppData) (id : Nat) :
    config_view (sequence_check data id) = config_view data
      ∧ latency_view (sequence_check data id) = latency_view data := by
  unfold sequence_check
  split_ifs <;> exact ⟨rfl, rfl⟩

theorem config_of_other (a b : AppData) (h : other_view a = other_view b) :
    config_view a = config_view b := by
  simp only [other_view, Prod.mk.injEq] at h
  simp only [config_view, Prod.mk.injEq]
  tauto

theorem latency_block_config (data data1 : AppData) (d : Delivery)
    (h : latency_block data d = Except.ok data1) : config_view data1 = config_view data := by
  unfold latency_block at h
  cases hn : d.now with
  | none => rw [hn] at h; exact Except.noConfusion h
  | some now_ =>
    rw [hn] at h
    dsimp only at h
    generalize hd0 :
      (if data.buffer_len < d.pending then { data with buffer_len := d.pending } else data)
        = data0 at h
    have hc0 : config_view data0 = config_view data := by subst hd0; split_ifs <;> rfl
    split_ifs at h with h1 h2 h3 h4 h5 h5
    · obtain ⟨u, hu, -⟩ := update_latency_some
        (print_latency data0 (now_ - d.creation_time) d.creation_time now_)
        (now_ - d.creation_time) (by have := h4.2.2; omega)
      rw [hu] at h
      exact Except.noConfusion h
    · obtain ⟨u, hu, hou⟩ := update_latency_some
        (print_latency data0 (now_ - d.creation_time) d.creation_time now_)
        (now_ - d.creation_time) (by have := h4.2.2; omega)
      rw [hu] at h
      injection h with h
      subst h
      rw [(sequence_check_config u d.id_value).1, config_of_other _ _ hou]
      exact hc0
    · injection h with h
      subst h
      rw [(sequence_check_config data0 d.id_value).1]
      exact hc0
    · injection h with h
      subst h
      exact hc0
    · injection h with h
      subst h
      exact hc0

theorem granted_append (xs ys : List Action) : granted (xs ++ ys) = granted xs + granted ys := by
  induction xs with
  | nil => simp [granted]
  | cons a xs ih => cases a <;> simp [granted, ih]; omega

/-- The handler on a readable, complete delivery, whenever it returns. -/
theorem delivery_handler_full (data data1 : AppData) (acts : List Action) (d : Delivery)
    (hr : d.readable = true) (hp : d.part = false)
    (h : delivery_handler data d = Except.ok (data1, acts)) :
    data1.message_count = (count_down data.message_count).1
      ∧ data1.pre_fetch = data.pre_fetch
      ∧ data1.latency = data.latency
      ∧ data1.received_count = (data.received_count + 1) % U64_MOD
      ∧ acts = (if d.settled = false then [Action.delivery_update_accepted] else [])
          ++ [Action.link_advance, Action.delivery_settle]
          ++ replenish data.pre_fetch d.credit ++ (count_down data.message_count).2 := by
  cases hb : (if data.latency ≠ 0 then latency_block data d else Except.ok data) with
  | error e =>
    unfold delivery_handler at h
    rw [if_pos ⟨hr, hp⟩, hb] at h
    exact Except.noConfusion h
  | ok data0 =>
    rw [delivery_handler_of_block data data0 d hr hp hb] at h
    have hc : config_view data0 = config_view data := by
      split_ifs at hb with hl
      · exact latency_block_config data data0 d hb
      · injection hb with hb; rw [hb]
    simp only [config_view, Prod.mk.injEq] at hc
    obtain ⟨-, c2, c3, -, c5, -, -, c8⟩ := hc
    injection h with h
    simp only [Prod.mk.injEq] at h
    obtain ⟨h1, h2⟩ := h
    subst h1
    refine ⟨?_, c3, c5, ?_, ?_⟩
    · show (count_down data0.message_count).1 = _
      rw [c2]
    · show (data0.received_count + 1) % U64_MOD = _
      rw [c8]
    · rw [← h2, c2, c3]

/-! ## Histogram -/


theorem sum_update_row {n : Nat} (g : Fin n → Nat) (i : Fin n) (v : Nat) :
    (∑ j, Function.update g i v j) + g i = (∑ j, g j) + v := by
  rw [Finset.sum_update_of_mem (Finset.mem_univ i), ← Finset.add_sum_erase _ g (Finset.mem_univ i),
    Finset.sdiff_singleton_eq_erase]
  omega

theorem sum_update_cell (f : Fin 4 → Fin 100 → Nat) (o : Fin 4) (i : Fin 100) (v : Nat) :
    (∑ o', ∑ i', Function.update f o (Function.update (f o) i v) o' i') + f o i
      = (∑ o', ∑ i', f o' i') + v := by
  have hF : (fun o' => ∑ i', Function.update f o (Function.update (f o) i v) o' i')
      = Function.update (fun o' => ∑ i', f o' i') o (∑ i', Function.update (f o) i v i') := by
    funext o'
    by_cases h : o' = o
    · subst h; simp
    · simp [Function.update_noteq h]
  have h1 := sum_update_row (fun o' => ∑ i', f o' i') o (∑ i', Function.update (f o) i v i')
  have h2 := sum_update_row (f o) i v
  rw [← hF] at h1
  simp only at h1
  omega

theorem cell_le_total (data : AppData) (o : Fin 4) (i : Fin 100) :
    data.distribution o i ≤ hist_total data := by
  unfold hist_total
  have h1 : data.distribution o i ≤ ∑ i', data.distribution o i' :=
    Finset.single_le_sum (f := fun i' => data.distribution o i') (fun _ _ => Nat.zero_le _)
      (Finset.mem_univ i)
  have h2 : (∑ i', data.distribution o i') ≤ ∑ o', ∑ i', data.distribution o' i' :=
    Finset.single_le_sum (f := fun o' => ∑ i', data.distribution o' i') (fun _ _ => Nat.zero_le _)
      (Finset.mem_univ o)
  omega

theorem update_latency_total (data : AppData) (m : Int) (hm : 0 ≤ m)
    (hroom : hist_total data + 1 < UINT_MOD) :
    ∃ u, update_latency data m = some u ∧ hist_total u = hist_total data + 1 := by
  obtain ⟨-, hd, ho⟩ := update_aggregates_other data m
  have ht : hist_total (update_aggregates data m) = hist_total data := by
    unfold hist_total; rw [hd, ho]
  unfold update_latency
  cases hs : latency_slot m with
  | none =>
    refine ⟨_, rfl, ?_⟩
    have hov : data.overflow ≤ hist_total data := by unfold hist_total; omega
    show (∑ o : Fin 4, ∑ i : Fin 100, (update_aggregates data m).distribution o i)
      + ((update_aggregates data m).overflow + 1) % UINT_MOD = hist_total data + 1
    rw [hd, ho, Nat.mod_eq_of_lt (by omega)]
    unfold hist_total
    omega
  | some p =>
    obtain ⟨o, i⟩ := p
    have hb := latency_slot_bounds m hm o i hs
    dsimp only
    unfold bump
    rw [dif_pos hb]
    refine ⟨_, rfl, ?_⟩
    have hc := cell_le_total (update_aggregates data m) ⟨o, hb.1⟩ ⟨i.toNat, by omega⟩
    have hsum := sum_update_cell (update_aggregates data m).distribution ⟨o, hb.1⟩
      ⟨i.toNat, by omega⟩
      (((update_aggregates data m).distribution ⟨o, hb.1⟩ ⟨i.toNat, by omega⟩ + 1) % UINT_MOD)
    rw [Nat.mod_eq_of_lt (by omega)] at hsum
    rw [← ht]
    unfold hist_total
    dsimp only
    rw [Nat.mod_eq_of_lt (by omega)]
    omega

theorem record_all_total (samples : List Int) :
    ∀ data : AppData, (∀ x ∈ samples, 0 ≤ x) → hist_total data + samples.length < UINT_MOD →
      ∃ u, record_all data samples = some u ∧ hist_total u = hist_total data + samples.length := by
  induction samples with
  | nil => intro data _ _; exact ⟨data, rfl, by simp⟩
  | cons m ms ih =>
    intro data hnn hroom
    simp only [List.length_cons] at hroom
    obtain ⟨u, hu, htu⟩ := update_latency_total data m (hnn m (List.mem_cons_self _ _)) (by omega)
    obtain ⟨w, hw, htw⟩ := ih u (fun x hx => hnn x (List.mem_cons_of_mem _ hx)) (by omega)
    refine ⟨w, ?_, ?_⟩
    · simp only [record_all, hu]; exact hw
    · rw [htw, htu, List.length_cons]; omega


theorem update_latency_five (data : AppData) :
    ∃ u, update_latency data 5 = some u
      ∧ u.distribution = Function.update data.distribution 0
          (Function.update (data.distribution 0) 5 ((data.distribution 0 5 + 1) % UINT_MOD))
      ∧ u.overflow = data.overflow := by
  obtain ⟨-, hd, ho⟩ := update_aggregates_other data 5
  have hs : latency_slot 5 = some (0, 5) := by decide
  unfold update_latency
  rw [hs]
  dsimp only
  unfold bump
  rw [dif_pos (by omega)]
  refine ⟨_, rfl, ?_, ho⟩
  dsimp only
  rw [hd]
  rfl

theorem record_all_five (k : Nat) :
    ∀ data : AppData, ∃ u, record_all data (List.replicate k 5) = some u
      ∧ u.distribution 0 5 % UINT_MOD = (data.distribution 0 5 + k) % UINT_MOD
      ∧ (0 < k → u.distribution 0 5 < UINT_MOD)
      ∧ (∀ o i, (o, i) ≠ ((0 : Fin 4), (5 : Fin 100)) → u.distribution o i = data.distribution o i)
      ∧ u.overflow = data.overflow := by
  induction k with
  | zero => intro data; exact ⟨data, rfl, by simp, by simp, fun _ _ _ => rfl, rfl⟩
  | succ k ih =>
    intro data
    obtain ⟨u, hu, hd, ho⟩ := update_latency_five data
    obtain ⟨w, hw, h1, h2, h3, h4⟩ := ih u
    have hcell : u.distribution 0 5 = (data.distribution 0 5 + 1) % UINT_MOD := by
      rw [hd]; simp
    refine ⟨w, ?_, ?_, ?_, ?_, ?_⟩
    · simp only [List.replicate_succ, record_all, hu]; exact hw
    · rw [h1, hcell]; simp only [UINT_MOD]; omega
    · intro _
      rcases Nat.eq_zero_or_pos k with hk | hk
      · subst hk
        simp only [List.replicate_zero, record_all, Option.some.injEq] at hw
        subst hw
        rw [hcell]
        exact Nat.mod_lt _ (by decide)
      · exact h2 hk
    · intro o i hne
      rw [h3 o i hne, hd]
      by_cases ho' : o = 0
      · subst ho'
        have hi : i ≠ 5 := fun h => hne (by rw [h])
        simp [Function.update_noteq hi]
      · simp [Function.update_noteq ho']
    · rw [h4, ho]

theorem sum_zero_of_cells (f : Fin 4 → Fin 100 → Nat) (h : ∀ o i, f o i = 0) :
    ∑ o, ∑ i, f o i = 0 := by
  simp [h]

/-- C4, as stated, fails: from the zero-initialised application data, `2^32`
calls of `update_latency` with the sample 5 wrap the `unsigned` cell
`distribution[0][5]` back to 0, so the histogram cells and the overflow counter
sum to 0, not to the number of calls. -/
theorem histogram_conservation_counterexample :
    ∃ u, record_all app_data_zero (List.replicate 4294967296 5) = some u
      ∧ hist_total u = 0
      ∧ (List.replicate 4294967296 (5 : Int)).length = 4294967296 := by
  obtain ⟨u, hu, h1, h2, h3, h4⟩ := record_all_five 4294967296 app_data_zero
  refine ⟨u, hu, ?_, List.length_replicate _ _⟩
  have hlt := h2 (by decide)
  have hz : u.distribution 0 5 = 0 := by
    rw [Nat.mod_eq_of_lt hlt] at h1
    rw [h1]
    decide
  have hall : ∀ o i, u.distribution o i = 0 := by
    intro o i
    by_cases h : (o, i) = ((0 : Fin 4), (5 : Fin 100))
    · simp only [Prod.mk.injEq] at h
      rw [h.1, h.2]; exact hz
    · rw [h3 o i h]; rfl
  unfold hist_total
  rw [sum_zero_of_cells _ hall, h4]
  rfl

/-- Every sample of 10000 or more goes to the overflow counter: the fourth test
of the if-chain repeats `msecs < 10000`, so order 3 is never selected. -/
theorem latency_slot_large (m : Int) (hm : 10000 ≤ m) : latency_slot m = none := by
  unfold latency_slot
  rw [if_neg (by omega), if_neg (by omega), if_neg (by omega), if_neg (by omega)]

/-- C3 (the code departs from the rule): the sample 45000, which the rule sends
to `distribution[3][45]`, leaves that cell at 0 and increments `overflow`; and
the samples `[5, 150, 2500, 45000, 150000]` recorded from the zeroed data give
`distribution[0][5] = distribution[1][15] = distribution[2][25] = 1` but
`distribution[3][45] = 0` and `overflow = 2`. -/
theorem histogram_order3_lost :
    (update_latency app_data_zero 45000).map (fun s => (s.distribution 3 45, s.overflow))
        = some (0, 1)
      ∧ (record_all app_data_zero [5, 150, 2500, 45000, 150000]).map
          (fun s => (s.distribution 0 5, s.distribution 1 15, s.distribution 2 25,
            s.distribution 3 45, s.overflow)) = some (1, 1, 1, 0, 2) := by
  constructor <;> decide

/-- C4 (amended): from application data whose histogram is zero (the
zero-initialised data in particular), after any sequence of fewer than `2^32`
calls of `update_latency` with non-negative samples every call returns (no
access outside the histogram), the cells and the overflow counter sum to the
number of calls, and every cell selected by a sample has order in `0..3` and
index in `0..99`. -/
theorem histogram_conservation (data : AppData) (samples : List Int)
    (hcells : ∀ o i, data.distribution o i = 0) (hover : data.overflow = 0)
    (hnn : ∀ x ∈ samples, 0 ≤ x) (hlen : samples.length < UINT_MOD) :
    ∃ u, record_all data samples = some u
      ∧ hist_total u = samples.length
      ∧ ∀ x ∈ samples, ∀ o i, latency_slot x = some (o, i) → o < 4 ∧ 0 ≤ i ∧ i < 100 := by
  have h0 : hist_total data = 0 := by
    unfold hist_total
    rw [sum_zero_of_cells data.distribution hcells, hover]
  obtain ⟨u, hu, ht⟩ := record_all_total samples data hnn (by rw [h0]; omega)
  refine ⟨u, hu, by rw [ht, h0]; omega, ?_⟩
  intro x hx o i hs
  exact latency_slot_bounds x (hnn x hx) o i hs

/-- Witness of `histogram_conservation`: the five samples of the specification's
scenario, from the zero-initialised data. -/
theorem histogram_conservation_witness :
    ∃ u, record_all app_data_zero [5, 150, 2500, 45000, 150000] = some u
      ∧ hist_total u = 5 := by
  obtain ⟨u, hu, ht, -⟩ := histogram_conservation app_data_zero [5, 150, 2500, 45000, 150000]
    (fun _ _ => rfl) rfl (by decide) (by decide)
  exact ⟨u, hu, ht⟩

/-! ## Credit replenishment and message limit -/

theorem count_down_actions (n : Int) :
    granted (count_down n).2 = 0 ∧ (count_down n).2.filter is_flow = []
      ∧ (Action.link_close ∈ (count_down n).2 ↔ n = 1)
      ∧ (count_down n).1 = if 0 < n then n - 1 else n := by
  unfold count_down
  split_ifs with h1 h2
  · exact ⟨rfl, rfl, by simp; omega, rfl⟩
  · exact ⟨rfl, rfl, by simp; omega, rfl⟩
  · exact ⟨rfl, rfl, by simp; omega, rfl⟩

theorem replenish_actions (p c : Int) :
    granted (replenish p c) = (if c < Int.tdiv p 2 then p - c else 0)
      ∧ (replenish p c).filter is_flow = replenish p c
      ∧ Action.link_close ∉ replenish p c := by
  unfold replenish
  split_ifs <;> simp [granted, is_flow]

/-- The calls made by the handler on a readable, complete delivery: the only
`pn_link_flow` is the replenishment, the only `pn_link_close` is the message
limit. -/
theorem delivery_actions (settled : Bool) (p c n : Int) :
    granted ((if settled = false then [Action.delivery_update_accepted] else [])
        ++ [Action.link_advance, Action.delivery_settle] ++ replenish p c ++ (count_down n).2)
        = (if c < Int.tdiv p 2 then p - c else 0)
      ∧ ((if settled = false then [Action.delivery_update_accepted] else [])
        ++ [Action.link_advance, Action.delivery_settle] ++ replenish p c
        ++ (count_down n).2).filter is_flow = replenish p c
      ∧ (Action.link_close ∈ (if settled = false then [Action.delivery_update_accepted] else [])
        ++ [Action.link_advance, Action.delivery_settle] ++ replenish p c ++ (count_down n).2
          ↔ n = 1) := by
  obtain ⟨c1, c2, c3, -⟩ := count_down_actions n
  obtain ⟨r1, r2, r3⟩ := replenish_actions p c
  refine ⟨?_, ?_, ?_⟩
  · rw [granted_append, granted_append, granted_append, c1, r1]
    cases settled <;> simp [granted]
  · rw [List.filter_append, List.filter_append, List.filter_append, c2, r2]
    cases settled <;> simp [is_flow]
  · rw [List.mem_append, List.mem_append, List.mem_append, c3]
    cases settled <;> simp [r3]

/-- The handler returns on every readable, complete delivery when latency
measurement is disabled. -/
theorem delivery_handler_latency_off (data : AppData) (d : Delivery)
    (hlat : data.latency = 0) (hr : d.readable = true) (hp : d.part = false) :
    delivery_handler data d =
      Except.ok
        ({ data with
            received_count := (data.received_count + 1) % U64_MOD
            message_count := (count_down data.message_count).1 },
          (if d.settled = false then [Action.delivery_update_accepted] else [])
            ++ [Action.link_advance, Action.delivery_settle]
            ++ replenish data.pre_fetch d.credit ++ (count_down data.message_count).2) :=
  delivery_handler_of_block data data d hr hp (by rw [if_neg (by simp [hlat])])

/-- C9: when latency measurement is disabled, on every readable, complete
delivery the handler returns (no `fatal`), and the application data it leaves
differs from the old one only in `received_count`, incremented as an
`unsigned long` (by exactly 1 below `2^64 - 1`), and in `message_count`,
decremented when it was positive; in particular `expected_sequence`,
`dropped_msgs`, `duplicate_msgs`, the latency aggregates, every histogram cell
and `overflow` are unchanged, whatever sequence id and creation time the
message carries. -/
theorem latency_disabled_frame (data : AppData) (d : Delivery)
    (hlat : data.latency = 0) (hr : d.readable = true) (hp : d.part = false) :
    ∃ data1 acts, delivery_handler data d = Except.ok (data1, acts)
      ∧ data1 =
          { data with
            received_count := (data.received_count + 1) % U64_MOD
            message_count :=
              if 0 < data.message_count then data.message_count - 1 else data.message_count }
      ∧ (data.received_count + 1 < U64_MOD → data1.received_count = data.received_count + 1)
      ∧ data1.expected_sequence = data.expected_sequence
      ∧ data1.dropped_msgs = data.dropped_msgs
      ∧ data1.duplicate_msgs = data.duplicate_msgs
      ∧ latency_view data1 = latency_view data
      ∧ post_abort (delivery_handler data d) = none := by
  have h := delivery_handler_latency_off data d hlat hr hp
  refine ⟨_, _, h, ?_, ?_, rfl, rfl, rfl, rfl, ?_⟩
  · rw [(count_down_actions data.message_count).2.2.2]
  · intro hlt
    exact Nat.mod_eq_of_lt hlt
  · rw [h]; rfl

/-- Witness of `latency_disabled_frame`: a delivery with a message id that is
not an unsigned long and a valid creation time, on the initial data. -/
theorem latency_disabled_frame_witness :
    ∃ data1 acts,
      delivery_handler app_data_init (delivery_of AtomType.PN_STRING 7 900 1000 99)
          = Except.ok (data1, acts)
        ∧ data1 = { app_data_init with received_count := 1, message_count := 0 } := by
  obtain ⟨data1, acts, h, he, -⟩ :=
    latency_disabled_frame app_data_init (delivery_of AtomType.PN_STRING 7 900 1000 99)
      rfl rfl rfl
  exact ⟨data1, acts, h, he⟩

theorem handled_delivery_cons (data : AppData) (d : Delivery) (es : List Event) :
    handled data (Event.PN_DELIVERY d :: es) =
      match delivery_handler data d with
      | Except.error _ => []
      | Except.ok (data1, acts) => (data1, acts) :: handled data1 es := rfl

/-- Once `message_count` is zero or negative the handler neither changes it nor
closes the link. -/
theorem message_limit_nonpos (ds : List Delivery) :
    ∀ data : AppData, data.message_count ≤ 0 →
      (∀ d ∈ ds, d.readable = true ∧ d.part = false) →
      ∀ (k : Nat) (r : AppData × List Action),
        (handled data (ds.map Event.PN_DELIVERY))[k]? = some r →
          r.1.message_count = data.message_count ∧ Action.link_close ∉ r.2 := by
  induction ds with
  | nil => intro data _ _ k r h; simp [handled] at h
  | cons d ds ih =>
    intro data hmc hfull k r h
    rw [List.map_cons, handled_delivery_cons] at h
    obtain ⟨hr, hp⟩ := hfull d (List.mem_cons_self _ _)
    cases hh : delivery_handler data d with
    | error e => rw [hh] at h; simp at h
    | ok p =>
      obtain ⟨data1, acts⟩ := p
      rw [hh] at h
      obtain ⟨h1, -, -, -, hacts⟩ := delivery_handler_full data data1 acts d hr hp hh
      have hcd := (count_down_actions data.message_count).2.2.2
      rw [if_neg (by omega)] at hcd
      rw [hcd] at h1
      cases k with
      | zero =>
        simp only [List.getElem?_cons_zero, Option.some.injEq] at h
        subst h
        refine ⟨h1, ?_⟩
        show Action.link_close ∉ acts
        rw [hacts, (delivery_actions d.settled data.pre_fetch d.credit data.message_count).2.2]
        omega
      | succ k =>
        simp only [List.getElem?_cons_succ] at h
        have := ih data1 (by omega) (fun x hx => hfull x (List.mem_cons_of_mem _ hx)) k r h
        rw [h1] at this
        exact this

/-- While `message_count` is positive each readable, complete delivery lowers it
by one, and the link is closed by the delivery that brings it to zero. -/
theorem message_limit_pos (ds : List Delivery) :
    ∀ data : AppData, 0 < data.message_count →
      (∀ d ∈ ds, d.readable = true ∧ d.part = false) →
      ∀ (k : Nat) (r : AppData × List Action),
        (handled data (ds.map Event.PN_DELIVERY))[k]? = some r →
          r.1.message_count = max 0 (data.message_count - ((k : Int) + 1))
            ∧ (Action.link_close ∈ r.2 ↔ (k : Int) + 1 = data.message_count) := by
  induction ds with
  | nil => intro data _ _ k r h; simp [handled] at h
  | cons d ds ih =>
    intro data hmc hfull k r h
    rw [List.map_cons, handled_delivery_cons] at h
    obtain ⟨hr, hp⟩ := hfull d (List.mem_cons_self _ _)
    cases hh : delivery_handler data d with
    | error e => rw [hh] at h; simp at h
    | ok p =>
      obtain ⟨data1, acts⟩ := p
      rw [hh] at h
      obtain ⟨h1, -, -, -, hacts⟩ := delivery_handler_full data data1 acts d hr hp hh
      have hcd := (count_down_actions data.message_count).2.2.2
      rw [if_pos hmc] at hcd
      rw [hcd] at h1
      have hfull1 : ∀ x ∈ ds, x.readable = true ∧ x.part = false :=
        fun x hx => hfull x (List.mem_cons_of_mem _ hx)
      cases k with
      | zero =>
        simp only [List.getElem?_cons_zero, Option.some.injEq] at h
        subst h
        refine ⟨by show data1.message_count = _; rw [h1]; simp; omega, ?_⟩
        show Action.link_close ∈ acts ↔ _
        rw [hacts, (delivery_actions d.settled data.pre_fetch d.credit data.message_count).2.2]
        simp; omega
      | succ k =>
        simp only [List.getElem?_cons_succ] at h
        rcases Int.lt_or_le 0 data1.message_count with hpos | hle
        · obtain ⟨e1, e2⟩ := ih data1 hpos hfull1 k r h
          rw [h1] at e1 e2
          refine ⟨by rw [e1]; push_cast; congr 1; omega, ?_⟩
          rw [e2]; push_cast; omega
        · obtain ⟨e1, e2⟩ := message_limit_nonpos ds data1 hle hfull1 k r h
          rw [h1] at e1 hle
          refine ⟨by rw [e1]; push_cast; omega, ?_⟩
          constructor
          · intro hc; exact absurd hc e2
          · intro hc; push_cast at hc; omega

/-- The latency block returns whenever the clock and the buffer are available
and the message id is an unsigned long. -/
theorem latency_block_returns (data : AppData) (d : Delivery)
    (hnow : d.now.isSome = true) (halloc : d.alloc_ok = true)
    (hty : d.id_type = AtomType.PN_ULONG) : ∃ data1, latency_block data d = Except.ok data1 := by
  obtain ⟨now_, hn⟩ := Option.isSome_iff_exists.mp hnow
  unfold latency_block
  rw [hn]
  dsimp only
  rw [if_neg (by simp [halloc])]
  generalize
    (if data.buffer_len < d.pending then { data with buffer_len := d.pending } else data) = data0
  by_cases h1 : 0 < d.recv_len
  · rw [if_pos h1]
    by_cases h2 : d.decode_ok = true
    · have hid : ¬ d.id_type ≠ AtomType.PN_ULONG := by simp [hty]
      rw [if_pos h2]
      by_cases h3 : sample_guard data0.start now_ d.creation_time
      · rw [if_pos h3]
        obtain ⟨u, hu, -⟩ := update_latency_some
          (print_latency data0 (now_ - d.creation_time) d.creation_time now_)
          (now_ - d.creation_time) (by have := h3.2.2; omega)
        rw [hu]
        dsimp only
        rw [if_neg hid]
        exact ⟨_, rfl⟩
      · rw [if_neg h3]
        dsimp only
        rw [if_neg hid]
        exact ⟨_, rfl⟩
    · rw [if_neg h2]
      exact ⟨_, rfl⟩
  · rw [if_neg h1]
    exact ⟨_, rfl⟩

/-- The handler returns on a delivery when latency measurement is disabled, or
when the clock and the buffer are available and the message id is an unsigned
long. -/
theorem delivery_handler_returns (data : AppData) (d : Delivery)
    (hok : data.latency = 0
      ∨ (d.now.isSome = true ∧ d.alloc_ok = true ∧ d.id_type = AtomType.PN_ULONG)) :
    ∃ data1 acts, delivery_handler data d = Except.ok (data1, acts)
      ∧ data1.latency = data.latency := by
  by_cases hf : d.readable = true ∧ d.part = false
  · have hb : ∃ data0, (if data.latency ≠ 0 then latency_block data d else Except.ok data)
        = Except.ok data0 := by
      by_cases hl : data.latency = 0
      · exact ⟨data, by rw [if_neg (by simp [hl])]⟩
      · rw [if_pos hl]
        rcases hok with h0 | ⟨b1, b2, b3⟩
        · exact absurd h0 hl
        · exact latency_block_returns data d b1 b2 b3
    obtain ⟨data0, hb⟩ := hb
    have hh := delivery_handler_of_block data data0 d hf.1 hf.2 hb
    exact ⟨_, _, hh, (delivery_handler_full data _ _ d hf.1 hf.2 hh).2.2.1⟩
  · exact ⟨data, [], by unfold delivery_handler; rw [if_neg hf], rfl⟩

/-- No delivery ends the process when latency measurement is disabled, or when
every delivery finds the clock and the buffer available and carries an unsigned
long id: the handler runs to its end on all of them. -/
theorem handled_length (ds : List Delivery) :
    ∀ data : AppData,
      (data.latency = 0
        ∨ ∀ d ∈ ds, d.now.isSome = true ∧ d.alloc_ok = true ∧ d.id_type = AtomType.PN_ULONG) →
      (handled data (ds.map Event.PN_DELIVERY)).length = ds.length := by
  induction ds with
  | nil => intro data _; rfl
  | cons d ds ih =>
    intro data hok
    rw [List.map_cons, handled_delivery_cons]
    obtain ⟨data1, acts, hh, hl⟩ := delivery_handler_returns data d
      (hok.imp id (fun hb => hb d (List.mem_cons_self _ _)))
    rw [hh]
    simp only [List.length_cons, Nat.add_right_cancel_iff]
    apply ih data1
    rcases hok with h0 | hb
    · exact Or.inl (hl.trans h0)
    · exact Or.inr (fun x hx => hb x (List.mem_cons_of_mem _ hx))

/-- C5: for every credit window `pre_fetch > 0` and link credit `c <= pre_fetch`
(in particular every `0 <= c <= pre_fetch`), on a readable, complete delivery
the credit the handler passes to `pn_link_flow` after settling is
`pre_fetch - c` when `c < pre_fetch / 2` and there is no such call otherwise;
the amount is never negative and `c` plus the amount never exceeds `pre_fetch`.
The C division `pre_fetch / 2` is the floor of the quotient here. The handler
does return when latency measurement is disabled, or when the clock and the
buffer are available and the message id is an unsigned long. -/
theorem credit_replenishment (data : AppData) (d : Delivery)
    (hr : d.readable = true) (hp : d.part = false)
    (hpf : 0 < data.pre_fetch) (hc1 : d.credit ≤ data.pre_fetch) :
    (∀ (data1 : AppData) (acts : List Action),
        delivery_handler data d = Except.ok (data1, acts) →
          granted acts
              = (if d.credit < data.pre_fetch / 2 then data.pre_fetch - d.credit else 0)
            ∧ acts.filter is_flow =
                (if d.credit < data.pre_fetch / 2 then
                  [Action.link_flow (data.pre_fetch - d.credit)] else [])
            ∧ 0 ≤ granted acts
            ∧ d.credit + granted acts ≤ data.pre_fetch)
      ∧ Int.tdiv data.pre_fetch 2 = data.pre_fetch / 2
      ∧ ((data.latency = 0
          ∨ (d.now.isSome = true ∧ d.alloc_ok = true ∧ d.id_type = AtomType.PN_ULONG)) →
        ∃ data1 acts, delivery_handler data d = Except.ok (data1, acts)) := by
  have hdiv : Int.tdiv data.pre_fetch 2 = data.pre_fetch / 2 :=
    Int.tdiv_eq_ediv (by omega) (by omega)
  refine ⟨?_, hdiv, ?_⟩
  · intro data1 acts h
    obtain ⟨-, -, -, -, hacts⟩ := delivery_handler_full data data1 acts d hr hp h
    obtain ⟨a1, a2, -⟩ := delivery_actions d.settled data.pre_fetch d.credit data.message_count
    rw [← hacts] at a1 a2
    rw [hdiv] at a1
    refine ⟨a1, ?_, ?_, ?_⟩
    · rw [a2]; unfold replenish; rw [hdiv]
    · rw [a1]; split_ifs <;> omega
    · rw [a1]; split_ifs <;> omega
  · intro hok
    obtain ⟨data1, acts, h, -⟩ := delivery_handler_returns data d hok
    exact ⟨data1, acts, h⟩

/-- Witness of `credit_replenishment`: the scenario of the specification, window
100, link credit 40 grants 60 and link credit 60 grants nothing. -/
theorem credit_replenishment_witness :
    (∃ data1 acts,
        delivery_handler app_data_init (delivery_of AtomType.PN_ULONG 0 0 1000 40)
            = Except.ok (data1, acts)
          ∧ granted acts = 60 ∧ acts.filter is_flow = [Action.link_flow 60])
      ∧ (∃ data1 acts,
        delivery_handler app_data_init (delivery_of AtomType.PN_ULONG 0 0 1000 60)
            = Except.ok (data1, acts)
          ∧ granted acts = 0 ∧ acts.filter is_flow = []) := by
  constructor
  · obtain ⟨hg, -, hret⟩ := credit_replenishment app_data_init
      (delivery_of AtomType.PN_ULONG 0 0 1000 40) rfl rfl (by decide) (by decide)
    obtain ⟨data1, acts, h⟩ := hret (Or.inl rfl)
    obtain ⟨g1, g2, -⟩ := hg data1 acts h
    exact ⟨data1, acts, h, g1, g2⟩
  · obtain ⟨hg, -, hret⟩ := credit_replenishment app_data_init
      (delivery_of AtomType.PN_ULONG 0 0 1000 60) rfl rfl (by decide) (by decide)
    obtain ⟨data1, acts, h⟩ := hret (Or.inl rfl)
    obtain ⟨g1, g2, -⟩ := hg data1 acts h
    exact ⟨data1, acts, h, g1, g2⟩

/-- C7: along a stream of readable, complete deliveries, for an initial
`message_count = n > 0` the `k`-th delivery handled (counting from 1) leaves
`message_count = n - k` as long as `k <= n` and 0 afterwards, and
`pn_link_close` is called by the `k`-th delivery exactly when `k = n`; for
`message_count = -1` the limit stays `-1` and no delivery calls
`pn_link_close`. Every delivery of the stream is handled when latency
measurement is disabled, or when no delivery makes the latency block end the
process. -/
theorem message_limit (data : AppData) (ds : List Delivery)
    (hfull : ∀ d ∈ ds, d.readable = true ∧ d.part = false) :
    (0 < data.message_count →
        ∀ (k : Nat) (r : AppData × List Action),
          (handled data (ds.map Event.PN_DELIVERY))[k]? = some r →
            r.1.message_count = max 0 (data.message_count - ((k : Int) + 1))
              ∧ (Action.link_close ∈ r.2 ↔ (k : Int) + 1 = data.message_count))
      ∧ (data.message_count = -1 →
        ∀ (k : Nat) (r : AppData × List Action),
          (handled data (ds.map Event.PN_DELIVERY))[k]? = some r →
            r.1.message_count = -1 ∧ Action.link_close ∉ r.2)
      ∧ ((data.latency = 0
          ∨ ∀ d ∈ ds, d.now.isSome = true ∧ d.alloc_ok = true ∧ d.id_type = AtomType.PN_ULONG) →
        (handled data (ds.map Event.PN_DELIVERY)).length = ds.length) := by
  refine ⟨fun hpos => message_limit_pos ds data hpos hfull, ?_, handled_length ds data⟩
  intro hm k r h
  have := message_limit_nonpos ds data (by omega) hfull k r h
  rw [hm] at this
  exact this

/-- Witness of `message_limit`: with a limit of three messages and four
deliveries, all four are handled, the third one closes the link and leaves the
limit at 0, the second and the fourth do not close it. -/
theorem message_limit_witness :
    (handled app_data_three (four_deliveries.map Event.PN_DELIVERY)).length = 4
      ∧ (∀ r, (handled app_data_three (four_deliveries.map Event.PN_DELIVERY))[1]? = some r →
          r.1.message_count = 1 ∧ Action.link_close ∉ r.2)
      ∧ (∀ r, (handled app_data_three (four_deliveries.map Event.PN_DELIVERY))[2]? = some r →
          r.1.message_count = 0 ∧ Action.link_close ∈ r.2)
      ∧ (∀ r, (handled app_data_three (four_deliveries.map Event.PN_DELIVERY))[3]? = some r →
          r.1.message_count = 0 ∧ Action.link_close ∉ r.2) := by
  obtain ⟨h1, -, h3⟩ := message_limit app_data_three four_deliveries (by decide)
  have h1 := h1 (by decide)
  refine ⟨h3 (Or.inl rfl), ?_, ?_, ?_⟩
  · intro r hr
    obtain ⟨e1, e2⟩ := h1 1 r hr
    exact ⟨e1.trans (by decide), fun hc => absurd (e2.mp hc) (by decide)⟩
  · intro r hr
    obtain ⟨e1, e2⟩ := h1 2 r hr
    exact ⟨e1.trans (by decide), e2.mpr (by decide)⟩
  · intro r hr
    obtain ⟨e1, e2⟩ := h1 3 r hr
    exact ⟨e1.trans (by decide), fun hc => absurd (e2.mp hc) (by decide)⟩

/-! ## Latency sample validity -/

/-- A call of `update_latency` always changes the histogram: one cell or the
overflow counter moves. -/
theorem update_latency_changes (data u : AppData) (m : Int)
    (h : update_latency data m = some u) : latency_view u ≠ latency_view data := by
  obtain ⟨-, hd, ho⟩ := update_aggregates_other data m
  intro heq
  simp only [latency_view, Prod.mk.injEq] at heq
  obtain ⟨-, -, -, e4, e5⟩ := heq
  unfold update_latency at h
  cases hs : latency_slot m with
  | none =>
    rw [hs] at h
    simp only [Option.some.injEq] at h
    subst h
    simp only [ho, UINT_MOD] at e5
    omega
  | some p =>
    obtain ⟨o, i⟩ := p
    rw [hs] at h
    simp only [bump] at h
    split_ifs at h with hb
    simp only [Option.some.injEq] at h
    subst h
    simp only [hd] at e4
    have := congrFun (congrFun e4 ⟨o, hb.1⟩) ⟨i.toNat, by omega⟩
    simp only [Function.update_same, UINT_MOD] at this
    omega

/-- The handler leaves the latency statistics as the latency block left them. -/
theorem delivery_handler_stats (data data0 : AppData) (d : Delivery)
    (hr : d.readable = true) (hp : d.part = false)
    (hb : (if data.latency ≠ 0 then latency_block data d else Except.ok data) = Except.ok data0) :
    ∃ data1 acts, delivery_handler data d = Except.ok (data1, acts)
      ∧ latency_view data1 = latency_view data0
      ∧ data1.received_count = (data0.received_count + 1) % U64_MOD :=
  ⟨_, _, delivery_handler_of_block data data0 d hr hp hb, rfl, rfl⟩

/-- C6, as stated, fails: a decoded full delivery without creation time and
without message id (latency measurement enabled, link started at time 0) makes
the sample invalid, yet the handler ends the process with "Bad sequence type"
and `received_count` is not incremented. -/
theorem latency_sample_counterexample :
    decoded_full app_data_latency delivery_no_id
      ∧ app_data_latency.latency ≠ 0
      ∧ 0 ≤ app_data_latency.start
      ∧ delivery_no_id.now = some 1000
      ∧ ¬ (0 < delivery_no_id.creation_time
          ∧ app_data_latency.start ≤ delivery_no_id.creation_time
          ∧ delivery_no_id.creation_time ≤ 1000)
      ∧ post_abort (delivery_handler app_data_latency delivery_no_id)
          = some Abort.bad_sequence_type
      ∧ (post_data (delivery_handler app_data_latency delivery_no_id)).map
          (fun s => s.received_count) = none := by
  refine ⟨?_, ?_, ?_, ?_, ?_, ?_, ?_⟩
  · unfold decoded_full; decide
  · decide
  · decide
  · decide
  · decide
  · decide
  · decide

/-- C6 (amended): for every decoded full delivery with latency measurement
enabled whose message id is of unsigned-long type, with receive time `now`,
creation time `then` and link start time `start >= 0`, the handler returns and
the latency statistics it leaves are those `update_latency` computes for
`now - then` when `then > 0`, `then >= start` and `now >= then`, and are the old
ones otherwise (so the statistics change if and only if the condition holds);
in both cases `received_count` is incremented by 1 as an `unsigned long`. -/
theorem latency_sample_validity (data : AppData) (d : Delivery) (now_ : Int)
    (hfull : decoded_full data d) (hlat : data.latency ≠ 0) (hnow : d.now = some now_)
    (hty : d.id_type = AtomType.PN_ULONG) (hstart : 0 ≤ data.start) :
    ∃ data1 acts, delivery_handler data d = Except.ok (data1, acts)
      ∧ ((0 < d.creation_time ∧ data.start ≤ d.creation_time ∧ d.creation_time ≤ now_) →
          (update_latency data (now_ - d.creation_time)).map latency_view
            = some (latency_view data1))
      ∧ (¬ (0 < d.creation_time ∧ data.start ≤ d.creation_time ∧ d.creation_time ≤ now_) →
          latency_view data1 = latency_view data)
      ∧ ((0 < d.creation_time ∧ data.start ≤ d.creation_time ∧ d.creation_time ≤ now_) ↔
          latency_view data1 ≠ latency_view data)
      ∧ data1.received_count = (data.received_count + 1) % U64_MOD
      ∧ (data.received_count + 1 < U64_MOD → data1.received_count = data.received_count + 1) := by
  obtain ⟨data2, hb, -, -, -, h4, -, -, hview⟩ := latency_block_decoded data d now_ hfull hnow
  rw [if_neg (by simp [hty])] at hb
  obtain ⟨data1, acts, hh, hv0, hr1⟩ :=
    delivery_handler_stats data _ d hfull.1 hfull.2.1 (by rw [if_pos hlat]; exact hb)
  have hv1 : latency_view data1 = latency_view data2 :=
    hv0.trans (sequence_check_config data2 d.id_value).2
  have hrc : (sequence_check data2 d.id_value).received_count = data.received_count := by
    have := (sequence_check_config data2 d.id_value).1
    simp only [config_view, Prod.mk.injEq] at this
    exact this.2.2.2.2.2.2.2.trans h4
  have hiff : sample_guard data.start now_ d.creation_time
      ↔ (0 < d.creation_time ∧ data.start ≤ d.creation_time ∧ d.creation_time ≤ now_) := by
    unfold sample_guard
    constructor
    · rintro ⟨a, b, c⟩; exact ⟨by omega, b, c⟩
    · rintro ⟨a, b, c⟩; exact ⟨by omega, b, c⟩
  have hval : (0 < d.creation_time ∧ data.start ≤ d.creation_time ∧ d.creation_time ≤ now_) →
      (update_latency data (now_ - d.creation_time)).map latency_view
        = some (latency_view data2) := by
    intro hc
    rw [if_pos (hiff.mpr hc)] at hview
    exact hview
  have hinv : ¬ (0 < d.creation_time ∧ data.start ≤ d.creation_time ∧ d.creation_time ≤ now_) →
      latency_view data2 = latency_view data := by
    intro hc
    rw [if_neg (fun hg => hc (hiff.mp hg))] at hview
    exact hview
  refine ⟨data1, acts, hh, ?_, ?_, ?_, ?_, ?_⟩
  · intro hc
    rw [hval hc, hv1]
  · intro hc
    exact hv1.trans (hinv hc)
  · constructor
    · intro hc
      have h1 := hval hc
      cases hu : update_latency data (now_ - d.creation_time) with
      | none => rw [hu] at h1; simp at h1
      | some u =>
        rw [hu] at h1
        simp only [Option.map_some', Option.some.injEq] at h1
        have := update_latency_changes data u _ hu
        rw [h1, ← hv1] at this
        exact this
    · intro hne
      by_contra hc
      exact hne (hv1.trans (hinv hc))
  · rw [hr1, hrc]
  · intro hlt
    rw [hr1, hrc]
    exact Nat.mod_eq_of_lt hlt

/-- Witness of `latency_sample_validity`: a delivery created at time 900 and
received at time 1000 records the sample 100, which lands in
`distribution[1][10]`. -/
theorem latency_sample_validity_witness :
    ∃ data1 acts,
      delivery_handler app_data_latency (delivery_of AtomType.PN_ULONG 0 900 1000 99)
          = Except.ok (data1, acts)
        ∧ (update_latency app_data_latency 100).map latency_view = some (latency_view data1)
        ∧ data1.received_count = 1 := by
  obtain ⟨data1, acts, h, h1, -, -, -, h5⟩ :=
    latency_sample_validity app_data_latency (delivery_of AtomType.PN_ULONG 0 900 1000 99) 1000
      (by unfold decoded_full; decide) (by decide) rfl rfl (by decide)
  exact ⟨data1, acts, h, h1 (by decide), h5 (by decide)⟩

/-! ## Replenishment threshold -/

/-- With a credit window of one, no event other than `PN_CONNECTION_INIT` makes
the handler call `pn_link_flow`, as long as the link credit read is not
negative. -/
theorem event_no_grant (data data1 : AppData) (acts : List Action) (e : Event)
    (hpf : data.pre_fetch = 1) (hne : e ≠ Event.PN_CONNECTION_INIT)
    (hcr : ∀ d, e = Event.PN_DELIVERY d → 0 ≤ d.credit)
    (h : event_handler data e = Except.ok (data1, acts)) :
    data1.pre_fetch = 1 ∧ granted acts = 0 ∧ acts.filter is_flow = [] := by
  cases e with
  | PN_CONNECTION_INIT => exact absurd rfl hne
  | PN_LINK_REMOTE_OPEN now_ =>
    cases now_ with
    | none => exact Except.noConfusion h
    | some t =>
      simp only [event_handler, Except.ok.injEq, Prod.mk.injEq] at h
      obtain ⟨h1, h2⟩ := h
      subst h1 h2
      exact ⟨hpf, rfl, rfl⟩
  | PN_LINK_REMOTE_CLOSE =>
    simp only [event_handler, Except.ok.injEq, Prod.mk.injEq] at h
    obtain ⟨h1, h2⟩ := h
    subst h1 h2
    exact ⟨hpf, rfl, rfl⟩
  | PN_DELIVERY d =>
    simp only [event_handler] at h
    by_cases hf : d.readable = true ∧ d.part = false
    · obtain ⟨-, h2, -, -, hacts⟩ := delivery_handler_full data data1 acts d hf.1 hf.2 h
      obtain ⟨a1, a2, -⟩ := delivery_actions d.settled data.pre_fetch d.credit data.message_count
      have hc := hcr d rfl
      have hno : ¬ d.credit < Int.tdiv data.pre_fetch 2 := by
        rw [hpf]
        have : Int.tdiv 1 2 = 0 := by decide
        omega
      rw [← hacts] at a1 a2
      refine ⟨h2.trans hpf, ?_, ?_⟩
      · rw [a1, if_neg hno]
      · rw [a2]; unfold replenish; rw [if_neg hno]
    · unfold delivery_handler at h
      rw [if_neg hf] at h
      simp only [Except.ok.injEq, Prod.mk.injEq] at h
      obtain ⟨h1, h2⟩ := h
      subst h1 h2
      exact ⟨hpf, rfl, rfl⟩
  | PN_TRANSPORT_ERROR =>
    simp only [event_handler, Except.ok.injEq, Prod.mk.injEq] at h
    obtain ⟨h1, h2⟩ := h
    subst h1 h2
    exact ⟨hpf, rfl, rfl⟩
  | other =>
    simp only [event_handler, Except.ok.injEq, Prod.mk.injEq] at h
    obtain ⟨h1, h2⟩ := h
    subst h1 h2
    exact ⟨hpf, rfl, rfl⟩

theorem handled_no_grant (evs : List Event) :
    ∀ data : AppData, data.pre_fetch = 1 →
      (∀ e ∈ evs, e ≠ Event.PN_CONNECTION_INIT ∧ ∀ d, e = Event.PN_DELIVERY d → 0 ≤ d.credit) →
      ∀ r ∈ handled data evs, r.1.pre_fetch = 1 ∧ granted r.2 = 0 ∧ r.2.filter is_flow = [] := by
  induction evs with
  | nil => intro data _ _ r hr; simp [handled] at hr
  | cons e es ih =>
    intro data hpf hev r hr
    obtain ⟨hne, hcr⟩ := hev e (List.mem_cons_self _ _)
    simp only [handled] at hr
    cases hh : event_handler data e with
    | error x => rw [hh] at hr; simp at hr
    | ok p =>
      obtain ⟨data1, acts⟩ := p
      rw [hh] at hr
      have hstep := event_no_grant data data1 acts e hpf hne hcr hh
      simp only [List.mem_cons] at hr
      rcases hr with rfl | hr
      · exact hstep
      · exact ih data1 hstep.1 (fun x hx => hev x (List.mem_cons_of_mem _ hx)) r hr

/-- C10: the handler grants credit after a readable, complete delivery exactly
when the link credit is below `pre_fetch / 2` computed with C's truncating
division, which for a window that is not negative is the floor of the quotient.
The validation of `parse_args` rejects a window exactly when it is `<= 0`, so a
window of one is accepted (`-p 1` is parsed into the initial data with
`pre_fetch = 1`); `PN_CONNECTION_INIT` then grants one credit; and with
a window of one, along every later sequence of events (no second
`PN_CONNECTION_INIT`, link credit read never negative) every event the handler
runs leaves the window at one and makes no call of `pn_link_flow`: the credit of
the link, which only `pn_link_flow` raises, stays at 0 once it is used up. -/
theorem replenish_threshold (data : AppData) (evs : List Event) (hpf : data.pre_fetch = 1)
    (hev : ∀ e ∈ evs,
      e ≠ Event.PN_CONNECTION_INIT ∧ ∀ d, e = Event.PN_DELIVERY d → 0 ≤ d.credit) :
    (∀ (s s1 : AppData) (acts : List Action) (d : Delivery),
        d.readable = true → d.part = false → delivery_handler s d = Except.ok (s1, acts) →
          (acts.filter is_flow ≠ [] ↔ d.credit < Int.tdiv s.pre_fetch 2)
            ∧ (0 ≤ s.pre_fetch → Int.tdiv s.pre_fetch 2 = s.pre_fetch / 2))
      ∧ (∀ s : AppData,
          validate_args s = Except.error Abort.prefetch_not_positive ↔ s.pre_fetch ≤ 0)
      ∧ validate_args data ≠ Except.error Abort.prefetch_not_positive
      ∧ parse_args app_data_zero [Opt.p 1] = Except.ok app_data_window_one
      ∧ (post_actions (event_handler data Event.PN_CONNECTION_INIT)).map granted = some 1
      ∧ (∀ c : Int, 0 ≤ c → replenish data.pre_fetch c = [])
      ∧ (∀ r ∈ handled data evs,
          r.1.pre_fetch = 1 ∧ granted r.2 = 0 ∧ r.2.filter is_flow = []) := by
  have hval : ∀ s : AppData,
      validate_args s = Except.error Abort.prefetch_not_positive ↔ s.pre_fetch ≤ 0 := by
    intro s
    unfold validate_args
    split_ifs <;> simp_all
  refine ⟨?_, hval, ?_, rfl, ?_, ?_, handled_no_grant evs data hpf hev⟩
  · intro s s1 acts d hr hp h
    obtain ⟨-, -, -, -, hacts⟩ := delivery_handler_full s s1 acts d hr hp h
    obtain ⟨-, a2, -⟩ := delivery_actions d.settled s.pre_fetch d.credit s.message_count
    rw [← hacts] at a2
    refine ⟨?_, fun h0 => Int.tdiv_eq_ediv h0 (by omega)⟩
    rw [a2]
    unfold replenish
    split_ifs with hc <;> simp [hc]
  · intro hbad
    have := (hval data).mp hbad
    omega
  · simp only [event_handler, post_actions, Option.map_some', granted, hpf]
    rfl
  · intro c hc
    unfold replenish
    rw [hpf, if_neg]
    have : Int.tdiv 1 2 = 0 := by decide
    omega

/-- Witness of `replenish_threshold`: with a window of one, after the initial
grant, the link opening, the one delivery allowed (link credit 0 afterwards) and
two further events are all handled without any call of `pn_link_flow`. -/
theorem replenish_threshold_witness :
    (handled app_data_window_one events_window_one).length = 4
      ∧ (∀ r ∈ handled app_data_window_one events_window_one,
          r.1.pre_fetch = 1 ∧ granted r.2 = 0 ∧ r.2.filter is_flow = [])
      ∧ (post_actions (event_handler app_data_window_one Event.PN_CONNECTION_INIT)).map granted
          = some 1 := by
  obtain ⟨-, -, -, -, h4, -, h6⟩ :=
    replenish_threshold app_data_window_one events_window_one rfl (by
      intro e he
      simp only [events_window_one, List.mem_cons, List.mem_singleton, List.not_mem_nil,
        or_false] at he
      rcases he with rfl | rfl | rfl | rfl
      · exact ⟨by simp, by simp⟩
      · refine ⟨by simp, ?_⟩
        intro d hd
        injection hd with hd
        subst hd
        decide
      · exact ⟨by simp, by simp⟩
      · refine ⟨by simp, ?_⟩
        intro d hd
        injection hd with hd
        subst hd
        decide)
  exact ⟨by rfl, h6, h4⟩

/-! ## Running aggregates -/

theorem f32_shift_small (n : Nat) (h : n < 16777216) : f32_shift n n = 0 := by
  cases n with
  | zero => rfl
  | succ k => simp only [f32_shift, if_pos h]

/-- Integers below `2^24` are held exactly by a `float`. -/
theorem f32_exact (z : Int) (h0 : 0 ≤ z) (h1 : z < 16777216) : f32 z = z := by
  unfold f32 f32_nat
  rw [if_neg (by omega), f32_shift_small z.natAbs (by omega)]
  simp only [pow_zero, Nat.mod_one, Nat.mul_zero, Nat.lt_one_iff, Nat.div_one, Nat.mul_one,
    if_true, Nat.zero_lt_one]
  omega


theorem update_aggregates_exact (data : AppData) (m : Int) (hm : 0 < m)
    (hmin : 0 < data.min_latency) (ht : 0 ≤ data.total_latency)
    (hsum : data.total_latency + m < 16777216) :
    (update_aggregates data m).min_latency = min data.min_latency m
      ∧ (update_aggregates data m).max_latency = max data.max_latency m
      ∧ (update_aggregates data m).total_latency = data.total_latency + m := by
  have hf : f32 m = m := f32_exact m (by omega) (by omega)
  have hs : f32 (data.total_latency + m) = data.total_latency + m :=
    f32_exact _ (by omega) hsum
  unfold update_aggregates
  simp only [hf]
  by_cases h1 : data.max_latency < m
  · simp only [if_pos h1]
    by_cases h2 : data.min_latency = 0 ∨ m < data.min_latency
    · simp only [if_pos h2, hs, min_def, max_def, and_true]
      split_ifs <;> omega
    · simp only [if_neg h2, hs, min_def, max_def, and_true]
      split_ifs <;> omega
  · simp only [if_neg h1]
    by_cases h2 : data.min_latency = 0 ∨ m < data.min_latency
    · simp only [if_pos h2, hs, min_def, max_def, and_true]
      split_ifs <;> omega
    · simp only [if_neg h2, hs, min_def, max_def, and_true]
      split_ifs <;> omega

theorem update_aggregates_first (data : AppData) (m : Int) (hm : 0 < m) (hx : m < 16777216)
    (hmin : data.min_latency = 0) (hmax : data.max_latency = 0) (ht : data.total_latency = 0) :
    (update_aggregates data m).min_latency = m
      ∧ (update_aggregates data m).max_latency = m
      ∧ (update_aggregates data m).total_latency = m := by
  have hf : f32 m = m := f32_exact m (by omega) hx
  unfold update_aggregates
  simp only [hf, hmax, if_pos hm, hmin, true_or, if_true, ht, Int.zero_add, and_self]

/-- A call of `update_latency` on a non-negative sample returns, with the
aggregates computed by `update_aggregates`. -/
theorem update_latency_aggregates (data : AppData) (m : Int) (hm : 0 ≤ m) :
    ∃ u, update_latency data m = some u
      ∧ u.min_latency = (update_aggregates data m).min_latency
      ∧ u.max_latency = (update_aggregates data m).max_latency
      ∧ u.total_latency = (update_aggregates data m).total_latency := by
  unfold update_latency
  cases hs : latency_slot m with
  | none => exact ⟨_, rfl, rfl, rfl, rfl⟩
  | some p =>
    obtain ⟨o, i⟩ := p
    obtain ⟨u, hu, -, h1, h2, h3, -⟩ :=
      bump_some (update_aggregates data m) o i (latency_slot_bounds m hm o i hs)
    exact ⟨u, hu, h1, h2, h3⟩

theorem record_all_aggregates (xs : List Int) :
    ∀ data : AppData, 0 < data.min_latency → 0 ≤ data.total_latency →
      (∀ y ∈ xs, 0 < y) → data.total_latency + xs.sum < 16777216 →
      ∃ u, record_all data xs = some u
        ∧ u.min_latency = xs.foldl min data.min_latency
        ∧ u.max_latency = xs.foldl max data.max_latency
        ∧ u.total_latency = data.total_latency + xs.sum := by
  induction xs with
  | nil => intro data _ _ _ _; exact ⟨data, rfl, rfl, rfl, by simp⟩
  | cons x xs ih =>
    intro data hmin ht hpos hsum
    have hx : 0 < x := hpos x (List.mem_cons_self _ _)
    have hrest : ∀ y ∈ xs, 0 < y := fun y hy => hpos y (List.mem_cons_of_mem _ hy)
    have hnn : 0 ≤ xs.sum := List.sum_nonneg (fun y hy => le_of_lt (hrest y hy))
    rw [List.sum_cons] at hsum
    obtain ⟨u, hu, h1, h2, h3⟩ := update_latency_aggregates data x (le_of_lt hx)
    obtain ⟨e1, e2, e3⟩ := update_aggregates_exact data x hx hmin ht (by omega)
    rw [e1] at h1
    rw [e2] at h2
    rw [e3] at h3
    obtain ⟨w, hw, w1, w2, w3⟩ := ih u (by rw [h1]; exact lt_min hmin hx) (by omega) hrest
      (by omega)
    refine ⟨w, ?_, ?_, ?_, ?_⟩
    · simp only [record_all, hu]; exact hw
    · rw [w1, h1]; rfl
    · rw [w2, h2]; rfl
    · rw [w3, h3, List.sum_cons]; omega

/-- On positive samples that a `float` holds exactly together with their sum,
recorded from data whose aggregates are zero, the aggregates are the minimum,
the maximum and the sum of the samples. -/
theorem aggregates_positive_samples (data : AppData) (x : Int) (xs : List Int)
    (hmin : data.min_latency = 0) (hmax : data.max_latency = 0) (ht : data.total_latency = 0)
    (hpos : ∀ y ∈ x :: xs, 0 < y) (hsum : (x :: xs).sum < 16777216) :
    ∃ u, record_all data (x :: xs) = some u
      ∧ u.min_latency = xs.foldl min x
      ∧ u.max_latency = xs.foldl max x
      ∧ u.total_latency = (x :: xs).sum := by
  have hx : 0 < x := hpos x (List.mem_cons_self _ _)
  have hrest : ∀ y ∈ xs, 0 < y := fun y hy => hpos y (List.mem_cons_of_mem _ hy)
  have hnn : 0 ≤ xs.sum := List.sum_nonneg (fun y hy => le_of_lt (hrest y hy))
  rw [List.sum_cons] at hsum
  obtain ⟨u, hu, h1, h2, h3⟩ := update_latency_aggregates data x (le_of_lt hx)
  obtain ⟨e1, e2, e3⟩ := update_aggregates_first data x hx (by omega) hmin hmax ht
  rw [e1] at h1
  rw [e2] at h2
  rw [e3] at h3
  obtain ⟨w, hw, w1, w2, w3⟩ := record_all_aggregates xs u (by omega) (by omega) hrest (by omega)
  refine ⟨w, ?_, ?_, ?_, ?_⟩
  · simp only [record_all, hu]; exact hw
  · rw [w1, h1]
  · rw [w2, h2]
  · rw [w3, h3, List.sum_cons]

/-- The positive samples `[7, 3, 9]` give minimum 3, maximum 9 and sum 19. -/
theorem aggregates_positive_samples_example :
    ∃ u, record_all app_data_zero [7, 3, 9] = some u
      ∧ u.min_latency = 3 ∧ u.max_latency = 9 ∧ u.total_latency = 19 := by
  obtain ⟨u, hu, h1, h2, h3⟩ := aggregates_positive_samples app_data_zero 7 [3, 9] rfl rfl rfl
    (by decide) (by decide)
  exact ⟨u, hu, h1.trans (by decide), h2.trans (by decide), h3.trans (by decide)⟩

/-- C8 (the code departs from the claim): after the samples `[0, 5]` recorded
from the zero-initialised data `min_latency` is 5 although the minimum of the
samples is 0: the first sample leaves `min_latency` at 0, which the test
`min_latency == 0` reads as "not set", and the second sample raises it to 5.
`max_latency = 5` and `total_latency = 5` are as claimed. -/
theorem min_latency_zero_sample :
    (record_all app_data_zero [0]).map (fun s => s.min_latency) = some 0
      ∧ (record_all app_data_zero [0, 5]).map
          (fun s => (s.min_latency, s.max_latency, s.total_latency)) = some (5, 5, 5)
      ∧ List.foldl min (0 : Int) [5] = 0 := by
  refine ⟨by decide, by decide, by decide⟩

end ProtonReceiver
